import Mathlib

/-!
Shallow embedding of the `aoctool` scaffolding tool (`src/lib.rs`).

Paths are modelled as an absolute-flag plus a list of components, the
filesystem as an association list of files (byte contents, bytes as `Nat`)
together with a list of existing directories.  The `toml_edit` document is
modelled as an ordered association tree with per-node decoration so that
serialization of untouched nodes is byte-for-byte stable.  External
collaborators (TOML parsing, HTTP fetch, input download) are parameters.
-/

/-- Model of a filesystem path: absolute flag plus components (which may
include `.` and `..` for non-normalized paths). -/
structure FPath where
  abs : Bool
  comps : List String
deriving DecidableEq, Repr

/-- Model of `Path::join`: an absolute right operand replaces the left. -/
def FPath.join (p q : FPath) : FPath :=
  if q.abs then q else ⟨p.abs, p.comps ++ q.comps⟩

/-- Split a character list on the separator, keeping empty chunks. -/
def splitSlash : List Char → List Char → List (List Char)
  | [], acc => [acc.reverse]
  | c :: rest, acc =>
    if c = Char.ofNat 47 then acc.reverse :: splitSlash rest []
    else splitSlash rest (c :: acc)

/-- Parse a string into a path, splitting on the separator. -/
def toFPath (s : String) : FPath :=
  ⟨(match s.toList with | c :: _ => c = Char.ofNat 47 | [] => false),
   ((splitSlash s.toList []).map (fun p => String.mk p)).filter (fun c => !(c == ""))⟩

/-- Normalize components: drop `.`, resolve `..` against the accumulator
(at the root, `..` is dropped, as `path_absolutize` does). -/
def normComps (acc : List String) : List String → List String
  | [] => acc.reverse
  | c :: cs =>
    if c = "." then normComps acc cs
    else if c = ".." then normComps (acc.drop 1) cs
    else normComps (c :: acc) cs

/-- Model of `path_absolutize::Absolutize`: resolve a possibly relative path
against the working directory without touching the filesystem. -/
def absolutize (cwd p : FPath) : FPath :=
  if p.abs then ⟨true, normComps [] p.comps⟩
  else ⟨true, normComps [] (cwd.comps ++ p.comps)⟩

/-- Join character lists with the separator. -/
def joinSlash : List (List Char) → List Char
  | [] => []
  | [c] => c
  | c :: cs => c ++ Char.ofNat 47 :: joinSlash cs

/-- Display a path: the slash-joined components, with a leading separator for
absolute paths (matches `Path::display` for the paths this tool builds). -/
def FPath.display (p : FPath) : String :=
  String.mk ((if p.abs then [Char.ofNat 47] else [])
    ++ joinSlash (p.comps.map String.toList))

/-- Inner loop of `pathdiff::diff_paths`: compute the components of the
relative path from `b` to `a`; the flag records whether the output
accumulator is still empty (the common-prefix phase). -/
def diffGo : List String → List String → Bool → Option (List String)
  | [], [], _ => some []
  | a :: as_, [], _ => some (a :: as_)
  | [], _ :: bs, _ => (diffGo [] bs false).map (fun r => ".." :: r)
  | a :: as_, b :: bs, empt =>
    if empt && a == b then diffGo as_ bs true
    else if b == "." then (diffGo as_ bs false).map (fun r => a :: r)
    else if b == ".." then none
    else some (([".."] ++ bs.map (fun _ => "..")) ++ (a :: as_))

/-- Model of `pathdiff::diff_paths(path, base)`. -/
def diff_paths (path base : FPath) : Option FPath :=
  if path.abs != base.abs then
    if path.abs then some path else none
  else
    (diffGo path.comps base.comps true).map (fun cs => ⟨false, cs⟩)

/-- Association-list lookup keyed by decidable equality. -/
def alookup {α β : Type} [DecidableEq α] : List (α × β) → α → Option β
  | [], _ => none
  | (k, v) :: rest, key => if k = key then some v else alookup rest key

/-- Association-list update: replace in place, or append when absent. -/
def aupdate {α β : Type} [DecidableEq α] : List (α × β) → α → β → List (α × β)
  | [], key, v => [(key, v)]
  | (k, w) :: rest, key, v =>
    if k = key then (key, v) :: rest else (k, w) :: aupdate rest key v

/-- Filesystem model: files (path to byte contents) and directories.  All
keys are absolutized paths; bytes are `Nat` (ASCII model). -/
structure FS where
  files : List (FPath × List Nat)
  dirs : List FPath
deriving DecidableEq, Repr

/-- Read a file's bytes, `none` when no file exists at the path. -/
def fsRead (fs : FS) (p : FPath) : Option (List Nat) :=
  alookup fs.files p

/-- Write (create or truncate-and-replace) a file. -/
def fsWrite (fs : FS) (p : FPath) (v : List Nat) : FS :=
  ⟨aupdate fs.files p v, fs.dirs⟩

/-- Every prefix of the path, from the root down to the path itself. -/
def ancestorsOf (p : FPath) : List FPath :=
  (List.range (p.comps.length + 1)).map (fun n => ⟨p.abs, p.comps.take n⟩)

/-- Model of `std::fs::create_dir_all`: register the directory and all of its
ancestors. -/
def create_dir_all (fs : FS) (p : FPath) : FS :=
  ⟨fs.files, fs.dirs ++ ancestorsOf p⟩

/-- Whether a path exists, as a file or as a directory. -/
def existsPath (fs : FS) (p : FPath) : Bool :=
  (fsRead fs p).isSome || fs.dirs.any (fun q => decide (q = p))

/-- Whether a path is a registered directory. -/
def isDir (fs : FS) (p : FPath) : Bool :=
  fs.dirs.any (fun q => decide (q = p))

/-- Whether `q` lies strictly below `p` in the tree. -/
def strictUnder (p q : FPath) : Bool :=
  (p.abs == q.abs) && p.comps.isPrefixOf q.comps
    && decide (p.comps.length < q.comps.length)

/-- Whether the directory has no entry below it (models an empty `read_dir`
iteration). -/
def dirEmptyCheck (fs : FS) (p : FPath) : Bool :=
  fs.files.all (fun e => !(strictUnder p e.1))
    && fs.dirs.all (fun q => !(strictUnder p q))

/-- Parent of a path (`Path::parent`), `none` at the root. -/
def parentP (p : FPath) : Option FPath :=
  match p.comps with
  | [] => none
  | _ :: _ => some ⟨p.abs, p.comps.dropLast⟩

/-- ASCII byte view of a string (every literal this tool writes is ASCII). -/
def strBytes (s : String) : List Nat :=
  s.toList.map Char.toNat

/-- Inverse direction, used when reading template text back from bytes. -/
def bytesToStr (bs : List Nat) : String :=
  String.mk (bs.map Char.ofNat)

/-- Model of the `toml_edit` value node, with leading/trailing decoration so
that untouched nodes serialize to identical bytes. -/
inductive TomlValue where
  | vString (pre suf : String) (s : String)
  | vArray (pre suf : String) (elems : List TomlValue)
  | vOther (raw : String)

/-- Model of the `toml_edit` item node. -/
inductive TomlItem where
  | value (v : TomlValue)
  | table (entries : List (String × TomlItem))
  | other (raw : String)

/-- Model of the `toml_edit::Document`: the ordered root table. -/
structure Document where
  root : List (String × TomlItem)

/-- Model of `Value::as_str`. -/
def asStr : TomlValue → Option String
  | .vString _ _ s => some s
  | _ => none

mutual

/-- Serialize a value, emitting its own decoration verbatim. -/
def serializeValue : TomlValue → String
  | .vString pre suf s => pre ++ "\"" ++ s ++ "\"" ++ suf
  | .vArray pre suf es => pre ++ "[" ++ serializeElems es ++ "]" ++ suf
  | .vOther raw => raw

/-- Serialize array elements, comma separated. -/
def serializeElems : List TomlValue → String
  | [] => ""
  | [v] => serializeValue v
  | v :: vs => serializeValue v ++ "," ++ serializeElems vs

end

mutual

/-- Serialize one keyed item. -/
def serializeItem (key : String) : TomlItem → String
  | .value v => key ++ " = " ++ serializeValue v ++ "\n"
  | .table es => "[" ++ key ++ "]\n" ++ serializeEntries es
  | .other raw => raw

/-- Serialize a table's entries in order. -/
def serializeEntries : List (String × TomlItem) → String
  | [] => ""
  | (k, it) :: es => serializeItem k it ++ serializeEntries es

end

/-- Model of `Document::to_string`. -/
def docToString (d : Document) : String :=
  serializeEntries d.root

/-- Error type of `aoctool` (`enum Error` in `src/lib.rs`); `reqwest` payloads
are dropped, the `Io` tag string is kept. -/
inductive Error where
  | io (tag : String)
  | noCargoToml
  | parseToml
  | malformedToml
  | template (name : String)
  | getInput
  | crateAlreadyExists (name : String)
  | clientBuilder
  | requestingInput
  | responseStatus
  | downloading
  | configCliConflict (cli cfg : String)
deriving DecidableEq, Repr

/-- Per-year path configuration (`aoclib::config` collaborator state). -/
structure Paths where
  implementation : Option FPath
  input_files : Option FPath
  day_template : Option FPath
deriving DecidableEq, Repr

/-- Empty per-year configuration (the `Default` of `Paths`). -/
def Paths.empty : Paths := ⟨none, none, none⟩

/-- Persisted configuration (`aoclib::config::Config` collaborator state),
restricted to the per-year paths this tool touches. -/
structure Config where
  paths : List (Nat × Paths)
deriving DecidableEq, Repr

/-- Paths entry for a year, with the empty default. -/
def Config.pathsFor (c : Config) (year : Nat) : Paths :=
  (alookup c.paths year).getD Paths.empty

/-- Modelled from the spec: `aoclib`'s `Config::implementation(year)` is not in
this repository; per the spec the implementation directory defaults to
`$(pwd)`. -/
def Config.implementation (c : Config) (cwd : FPath) (year : Nat) : FPath :=
  (c.pathsFor year).implementation.getD cwd

/-- Modelled from the spec: `aoclib`'s `Config::input_files(year)` is not in
this repository; per the spec the input-files directory defaults to
`$(pwd)/inputs`. -/
def Config.input_files (c : Config) (cwd : FPath) (year : Nat) : FPath :=
  (c.pathsFor year).input_files.getD (cwd.join ⟨false, ["inputs"]⟩)

/-- Modelled from the spec: `aoclib`'s `Config::day_template(year)` is not in
this repository; the template directory defaults to a well-known directory
under `$(pwd)`. -/
def Config.day_template (c : Config) (cwd : FPath) (year : Nat) : FPath :=
  (c.pathsFor year).day_template.getD (cwd.join ⟨false, ["day-template"]⟩)

/-- Fixed template list (`TEMPLATE_FILES` in `src/lib.rs`). -/
def TEMPLATE_FILES : List String := ["Cargo.toml", "src/lib.rs", "src/main.rs"]

/-- Remote location of a template (the URL built in `ensure_template_dir`). -/
def template_url (t : String) : String :=
  "https://raw.githubusercontent.com/coriolinus/aoctool/master/day-template/" ++ t

/-- The workspace table of a document (empty for absent or malformed). -/
def wsTable (d : Document) : List (String × TomlItem) :=
  match alookup d.root "workspace" with
  | some (.table es) => es
  | _ => []

/-- The `workspace.members` array elements (empty for absent or malformed). -/
def membersArr (d : Document) : List TomlValue :=
  match alookup (wsTable d) "members" with
  | some (.value (.vArray _ _ es)) => es
  | _ => []

/-- The string elements of `workspace.members`. -/
def memberStrs (d : Document) : List String :=
  (membersArr d).filterMap asStr

/-- Whether the nodes on the `workspace.members` path have the kinds the
editor requires (absent nodes are fine: they are created on demand). -/
def validManifest (d : Document) : Bool :=
  match alookup d.root "workspace" with
  | none => true
  | some (.table es) =>
    match alookup es "members" with
    | none => true
    | some (.value (.vArray _ _ _)) => true
    | some _ => false
  | some _ => false

/-- Embedding of `add_crate_to_workspace` (`src/lib.rs:34`): ensure
`workspace` is a table and `workspace.members` a value array, reject exact
string duplicates, append the crate name, and write the serialized document
back to the manifest path. -/
def add_crate_to_workspace (cwd path : FPath) (manifest : Document)
    (crate_name : String) (fs : FS) : (Except Error Document) × FS :=
  match (alookup manifest.root "workspace").getD (.table []) with
  | .table ws =>
    match (alookup ws "members").getD (.value (.vArray "" "" [])) with
    | .value v =>
      match v with
      | .vArray pre suf elems =>
        if elems.any (fun e => ((asStr e).map (fun s => decide (s = crate_name))).getD false) then
          (.error (.crateAlreadyExists crate_name), fs)
        else
          let elems' := elems ++ [TomlValue.vString "" "" crate_name]
          let ws' := aupdate ws "members" (.value (.vArray pre suf elems'))
          let manifest' : Document := ⟨aupdate manifest.root "workspace" (.table ws')⟩
          (.ok manifest',
           fsWrite fs (absolutize cwd path) (strBytes (docToString manifest')))
      | _ => (.error .malformedToml, fs)
    | _ => (.error .malformedToml, fs)
  | _ => (.error .malformedToml, fs)

/-- Embedding of `get_cargo_toml` (`src/lib.rs:20`): fail with `NoCargoToml`
when the manifest file is absent, otherwise read and parse it (the
`toml_edit` parser is a collaborator parameter). -/
def get_cargo_toml (parse : List Nat → Option Document) (cwd : FPath)
    (config : Config) (year : Nat) (fs : FS) :
    Except Error (FPath × Document) :=
  let p := (config.implementation cwd year).join (toFPath "Cargo.toml")
  if existsPath fs (absolutize cwd p) then
    match fsRead fs (absolutize cwd p) with
    | none => .error (.io "reading Cargo.toml")
    | some bs =>
      match parse bs with
      | some d => .ok (p, d)
      | none => .error .parseToml
  else .error .noCargoToml

/-- Embedding of the template-ensuring loop of `ensure_template_dir`
(`src/lib.rs:75`): fetch and create only absent templates; the returned list
logs every URL handed to the fetch collaborator. -/
def ensure_loop (fetch : String → Except Error (List Nat)) (cwd tdir : FPath) :
    List String → FS → List String → (Except Error Unit) × FS × List String
  | [], fs, log => (.ok (), fs, log)
  | t :: ts, fs, log =>
    let tp := absolutize cwd (tdir.join (toFPath t))
    if existsPath fs tp then ensure_loop fetch cwd tdir ts fs log
    else
      let fs1 := match parentP tp with
        | some par => create_dir_all fs par
        | none => fs
      match fetch (template_url t) with
      | .error e => (.error e, fs1, log ++ [template_url t])
      | .ok bytes =>
        if existsPath fs1 tp then
          (.error (.io "creating template file"), fs1, log ++ [template_url t])
        else
          ensure_loop fetch cwd tdir ts (fsWrite fs1 tp bytes) (log ++ [template_url t])

/-- Embedding of `ensure_template_dir` (`src/lib.rs:73`). -/
def ensure_template_dir (fetch : String → Except Error (List Nat)) (cwd : FPath)
    (config : Config) (year : Nat) (fs : FS) :
    (Except Error FPath) × FS × List String :=
  let tdir := config.day_template cwd year
  match ensure_loop fetch cwd tdir TEMPLATE_FILES fs [] with
  | (.ok _, fs', log) => (.ok tdir, fs', log)
  | (.error e, fs', log) => (.error e, fs', log)

/-- Substitution context built by `render_templates_into`. -/
def ctxFor (year day : Nat) (day_name : String) : List (String × String) :=
  [("year", toString year), ("day", toString day), ("package_name", day_name)]

mutual

/-- Model of the `tinytemplate` render: copy text, expanding each
brace-delimited placeholder from the context. -/
def substGo (ctx : List (String × String)) : List Char → Option (List Char)
  | [] => some []
  | c :: cs =>
    if c = Char.ofNat 123 then substName ctx [] cs
    else (substGo ctx cs).map (fun r => c :: r)

/-- Scan a placeholder name up to the closing brace; an unterminated or
unknown placeholder is an error. -/
def substName (ctx : List (String × String)) (acc : List Char) :
    List Char → Option (List Char)
  | [] => none
  | c :: cs =>
    if c = Char.ofNat 125 then
      match alookup ctx (String.mk acc.reverse).trim with
      | some v => (substGo ctx cs).map (fun r => v.toList ++ r)
      | none => none
    else substName ctx (c :: acc) cs

end

/-- Render one template text against a context. -/
def renderTemplate (text : String) (ctx : List (String × String)) : Option String :=
  (substGo ctx text.toList).map String.mk

/-- Embedding of the per-template loop of `render_templates_into`
(`src/lib.rs:131`): read the template, render it, and write the result to a
newly created destination file, failing when the destination exists. -/
def render_loop (cwd tdir ddir : FPath) (ctx : List (String × String)) :
    List String → FS → (Except Error Unit) × FS
  | [], fs => (.ok (), fs)
  | t :: ts, fs =>
    match fsRead fs (absolutize cwd (tdir.join (toFPath t))) with
    | none => (.error (.io "reading template file"), fs)
    | some bs =>
      match renderTemplate (bytesToStr bs) ctx with
      | none => (.error (.template t), fs)
      | some out =>
        let dst := absolutize cwd (ddir.join (toFPath t))
        if existsPath fs dst then
          (.error (.io "opening template destination for writing"), fs)
        else render_loop cwd tdir ddir ctx ts (fsWrite fs dst (strBytes out))

/-- Embedding of `render_templates_into` (`src/lib.rs:109`). -/
def render_templates_into (fetch : String → Except Error (List Nat)) (cwd : FPath)
    (config : Config) (day_dir : FPath) (year day : Nat) (day_name : String)
    (fs : FS) : (Except Error Unit) × FS × List String :=
  match ensure_template_dir fetch cwd config year fs with
  | (.error e, fs', log) => (.error e, fs', log)
  | (.ok tdir, fs', log) =>
    match render_loop cwd tdir day_dir (ctxFor year day day_name) TEMPLATE_FILES fs' with
    | (r, fs'') => (r, fs'', log)

/-- Zero-padded day name (`format!("day{:02}", day)`). -/
def dayName (day : Nat) : String :=
  "day" ++ (if day < 10 then "0" ++ toString day else toString day)

/-- Embedding of `initialize` (`src/lib.rs:162`, named `initDay` here): load
the manifest, then unless skipped create the day crate (day directory,
workspace registration, template render), then unless skipped call the
input-fetch collaborator. -/
def initDay (parse : List Nat → Option Document)
    (fetch : String → Except Error (List Nat))
    (getInp : FS → (Except Error Unit) × FS)
    (cwd : FPath) (config : Config) (year day : Nat)
    (skip_create_crate skip_get_input : Bool) (fs : FS) :
    (Except Error Unit) × FS :=
  match get_cargo_toml parse cwd config year fs with
  | .error e => (.error e, fs)
  | .ok (cargo_toml_path, manifest) =>
    let step1 : (Except Error Unit) × FS :=
      if skip_create_crate then (.ok (), fs)
      else
        let day_name := dayName day
        let day_dir := (config.implementation cwd year).join (toFPath day_name)
        let fs1 := create_dir_all fs (absolutize cwd (day_dir.join (toFPath "src")))
        match add_crate_to_workspace cwd cargo_toml_path manifest day_name fs1 with
        | (.error e, fs2) => (.error e, fs2)
        | (.ok _, fs2) =>
          match render_templates_into fetch cwd config day_dir year day day_name fs2 with
          | (r, fs3, _) => (r, fs3)
    match step1 with
    | (.error e, fs') => (.error e, fs')
    | (.ok _, fs') => if skip_get_input then (.ok (), fs') else getInp fs'

/-- Split file bytes into terminator-delimited lines, each including its
terminator, the last possibly unterminated (models `BufRead::read_until`). -/
def linesOf : List Nat → List (List Nat)
  | [] => []
  | b :: rest =>
    if b = 10 then [10] :: linesOf rest
    else
      match linesOf rest with
      | [] => [[b]]
      | l :: ls => (b :: l) :: ls

/-- Whether some line of the content equals the candidate exactly. -/
def containsLine (c : List Nat) (l : List Nat) : Bool :=
  (linesOf c).any (fun x => decide (x = l))

/-- Number of lines of the content equal to the candidate. -/
def countLine (c l : List Nat) : Nat :=
  (linesOf c).count l

/-- Embedding of `append_if_not_present` (`src/lib.rs:198`): terminate the
line, treat an unopenable file as not containing it, and append in
create-if-absent mode when no existing line matches. -/
def append_if_not_present (cwd path : FPath) (line0 : List Nat) (fs : FS) :
    (Except Error Unit) × FS :=
  let line := line0 ++ [10]
  let p := absolutize cwd path
  let contains_line :=
    match fsRead fs p with
    | some c => containsLine c line
    | none => false
  if contains_line then (.ok (), fs)
  else (.ok (), fsWrite fs p ((fsRead fs p).getD [] ++ line))

/-- Embedding of the `ensure_path` closure inside `initialize_year`
(`src/lib.rs:249`): returns the operation result, the (possibly updated)
configured value, and the filesystem. -/
def ensure_path (cwd : FPath) (maybe_path dest : Option FPath) (fs : FS) :
    (Except Error Unit) × Option FPath × FS :=
  match maybe_path, dest with
  | some d, none =>
    let ad := absolutize cwd d
    let fs1 := if existsPath fs ad then fs else create_dir_all fs ad
    if existsPath fs1 ad then (.ok (), some ad, fs1)
    else (.error (.io "canonicalizing path destination"), dest, fs1)
  | some d, some c =>
    if absolutize cwd d ≠ absolutize cwd c then
      (.error (.configCliConflict d.display c.display), dest, fs)
    else (.ok (), dest, fs)
  | _, _ => (.ok (), dest, fs)

/-- CLI path options (`struct PathOpts` in `src/lib.rs`). -/
structure PathOpts where
  input_files : Option FPath
  implementation : Option FPath
  day_templates : Option FPath
deriving DecidableEq, Repr

/-- Model of `config.paths.entry(year).or_default()`: materialize the year's
entry. -/
def orDefaultPaths (config : Config) (year : Nat) : Config :=
  match alookup config.paths year with
  | some _ => config
  | none => ⟨config.paths ++ [(year, Paths.empty)]⟩

/-- Replace the year's paths entry. -/
def setPathsEntry (config : Config) (year : Nat) (p : Paths) : Config :=
  ⟨aupdate config.paths year p⟩

/-- Embedding of `initialize_year` (`src/lib.rs:246`, named `initYear` here):
reconcile the three path kinds, create a fresh Rust workspace when the
implementation directory is absent or empty, and ensure the input-files
directory is git-ignored when it does not escape the implementation
directory. -/
def initYear (cwd : FPath) (config : Config) (year : Nat) (po : PathOpts)
    (fs : FS) : (Except Error Unit) × Config × FS :=
  let config1 := orDefaultPaths config year
  let p0 := config1.pathsFor year
  match ensure_path cwd po.input_files p0.input_files fs with
  | (.error e, d1, fs1) =>
    (.error e, setPathsEntry config1 year { p0 with input_files := d1 }, fs1)
  | (.ok _, d1, fs1) =>
    let p1 := { p0 with input_files := d1 }
    match ensure_path cwd po.implementation p1.implementation fs1 with
    | (.error e, d2, fs2) =>
      (.error e, setPathsEntry config1 year { p1 with implementation := d2 }, fs2)
    | (.ok _, d2, fs2) =>
      let p2 := { p1 with implementation := d2 }
      match ensure_path cwd po.day_templates p2.day_template fs2 with
      | (.error e, d3, fs3) =>
        (.error e, setPathsEntry config1 year { p2 with day_template := d3 }, fs3)
      | (.ok _, d3, fs3) =>
        let p3 := { p2 with day_template := d3 }
        let config2 := setPathsEntry config1 year p3
        let impl_path := config2.implementation cwd year
        let aImpl := absolutize cwd impl_path
        let fresh := !existsPath fs3 aImpl
          || (isDir fs3 aImpl && dirEmptyCheck fs3 aImpl)
        let fs4 :=
          if fresh then
            let fsA := create_dir_all fs3 aImpl
            let fsB := (append_if_not_present cwd (impl_path.join (toFPath ".gitignore"))
              (strBytes "/target/") fsA).2
            let cargo := absolutize cwd (impl_path.join (toFPath "Cargo.toml"))
            if existsPath fsB cargo then fsB
            else fsWrite fsB cargo (strBytes "[workspace]\nmembers = []\n")
          else fs3
        let fs5 :=
          match diff_paths (config2.input_files cwd year) (config2.implementation cwd year) with
          | some rel =>
            if rel.comps.head? = some ".." then fs4
            else
              (append_if_not_present cwd (impl_path.join (toFPath ".gitignore"))
                (strBytes rel.display ++ [47]) fs4).2
          | none => fs4
        (.ok (), config2, fs5)

/-! ## Association-list lemmas -/

theorem alookup_aupdate_self {α β : Type} [DecidableEq α]
    (l : List (α × β)) (k : α) (v : β) :
    alookup (aupdate l k v) k = some v := by
  induction l with
  | nil => simp [aupdate, alookup]
  | cons e rest ih =>
    by_cases h : e.1 = k
    · simp [aupdate, h, alookup]
    · simpa [aupdate, h, alookup] using ih

theorem alookup_aupdate_ne {α β : Type} [DecidableEq α]
    (l : List (α × β)) (k r : α) (v : β) (h : r ≠ k) :
    alookup (aupdate l k v) r = alookup l r := by
  have hk : ¬ k = r := fun hx => h hx.symm
  induction l with
  | nil => simp [aupdate, alookup, hk]
  | cons e rest ih =>
    obtain ⟨a, b⟩ := e
    by_cases he : a = k
    · subst he
      simp [aupdate, alookup, hk]
    · simp only [aupdate, if_neg he, alookup]
      by_cases hr : a = r <;> simp [hr, ih]

theorem filter_aupdate {α β : Type} [DecidableEq α] [BEq α] [LawfulBEq α]
    (l : List (α × β)) (k : α) (v : β) :
    (aupdate l k v).filter (fun e => !(e.1 == k))
      = l.filter (fun e => !(e.1 == k)) := by
  induction l with
  | nil => simp [aupdate]
  | cons e rest ih =>
    by_cases h : e.1 = k
    · simp [aupdate, h]
    · simp [aupdate, h, ih]

theorem aupdate_self {α β : Type} [DecidableEq α]
    (l : List (α × β)) (k : α) (v : β) (h : alookup l k = some v) :
    aupdate l k v = l := by
  induction l with
  | nil => simp [alookup] at h
  | cons e rest ih =>
    by_cases he : e.1 = k
    · simp only [alookup, if_pos he] at h
      cases e with
      | mk a b => simp_all [aupdate]
    · simp only [alookup, if_neg he] at h
      simp [aupdate, he, ih h]

/-! ## Duplicate-check lemmas -/

theorem anyStr_eq_false (es : List TomlValue) (n : String)
    (h : n ∉ es.filterMap asStr) :
    (es.any (fun e => ((asStr e).map (fun s => decide (s = n))).getD false)) = false := by
  induction es with
  | nil => rfl
  | cons e rest ih =>
    cases he : asStr e with
    | none =>
      have h' : n ∉ rest.filterMap asStr := by
        rw [List.filterMap_cons, he] at h
        exact h
      simp [List.any_cons, he, ih h']
    | some s =>
      rw [List.filterMap_cons, he] at h
      simp only [List.mem_cons, not_or] at h
      have hsn : ¬ (s = n) := fun hs => h.1 hs.symm
      simp [List.any_cons, he, ih h.2, hsn]

theorem anyStr_eq_true (es : List TomlValue) (n : String)
    (h : n ∈ es.filterMap asStr) :
    (es.any (fun e => ((asStr e).map (fun s => decide (s = n))).getD false)) = true := by
  induction es with
  | nil => simp [List.filterMap_nil] at h
  | cons e rest ih =>
    cases he : asStr e with
    | none =>
      simp only [List.filterMap_cons, he] at h
      simp [he, List.any_cons, ih h]
    | some s =>
      simp only [List.filterMap_cons, he, List.mem_cons] at h
      rcases h with h | h
      · simp [he, List.any_cons, h]
      · simp [he, List.any_cons, ih h]

/-- C1: for every valid manifest document and crate name not already a string
element of `workspace.members`, `add_crate_to_workspace` succeeds, appends the
name at the end of the members array (so the name occurs exactly once more
than before), writes the serialized document to the manifest path, and leaves
every root entry other than `workspace` — and every workspace entry other
than `members` — byte-for-byte unchanged in the serialization. -/
theorem add_crate_appends_and_preserves (cwd path : FPath) (doc : Document)
    (n : String) (fs : FS)
    (hv : validManifest doc = true) (hn : n ∉ memberStrs doc) :
    ∃ doc',
      add_crate_to_workspace cwd path doc n fs
        = (.ok doc', fsWrite fs (absolutize cwd path) (strBytes (docToString doc'))) ∧
      membersArr doc' = membersArr doc ++ [TomlValue.vString "" "" n] ∧
      (memberStrs doc').count n = (memberStrs doc).count n + 1 ∧
      doc'.root.filter (fun e => !(e.1 == "workspace"))
        = doc.root.filter (fun e => !(e.1 == "workspace")) ∧
      serializeEntries (doc'.root.filter (fun e => !(e.1 == "workspace")))
        = serializeEntries (doc.root.filter (fun e => !(e.1 == "workspace"))) ∧
      (wsTable doc').filter (fun e => !(e.1 == "members"))
        = (wsTable doc).filter (fun e => !(e.1 == "members")) ∧
      serializeEntries ((wsTable doc').filter (fun e => !(e.1 == "members")))
        = serializeEntries ((wsTable doc).filter (fun e => !(e.1 == "members"))) := by
  cases hws : alookup doc.root "workspace" with
  | none =>
    have hmem : membersArr doc = [] := by simp [membersArr, wsTable, hws, alookup]
    refine ⟨⟨aupdate doc.root "workspace"
      (.table (aupdate [] "members" (.value (.vArray "" "" [TomlValue.vString "" "" n]))))⟩,
      ?_, ?_, ?_, ?_, ?_, ?_, ?_⟩
    · simp [add_crate_to_workspace, hws, alookup]
    · simp [membersArr, wsTable, hws, alookup_aupdate_self, aupdate, alookup]
    · simp [memberStrs, membersArr, wsTable, hws, alookup_aupdate_self, aupdate, alookup,
        asStr, List.filterMap_cons]
    · exact filter_aupdate _ _ _
    · exact congrArg _ (filter_aupdate _ _ _)
    · simp [wsTable, alookup_aupdate_self, hws, aupdate, alookup]
    · simp [wsTable, alookup_aupdate_self, hws, aupdate, alookup]
  | some it =>
    cases it with
    | value v => simp [validManifest, hws] at hv
    | other raw => simp [validManifest, hws] at hv
    | table ws =>
      cases hm : alookup ws "members" with
      | none =>
        have hmem : membersArr doc = [] := by simp [membersArr, wsTable, hws, hm]
        refine ⟨⟨aupdate doc.root "workspace"
          (.table (aupdate ws "members" (.value (.vArray "" "" [TomlValue.vString "" "" n]))))⟩,
          ?_, ?_, ?_, ?_, ?_, ?_, ?_⟩
        · simp [add_crate_to_workspace, hws, hm, alookup]
        · simp [membersArr, wsTable, hws, hm, alookup_aupdate_self]
        · simp [memberStrs, membersArr, wsTable, hws, hm, alookup_aupdate_self, asStr,
            List.filterMap_cons]
        · exact filter_aupdate _ _ _
        · exact congrArg _ (filter_aupdate _ _ _)
        · simp only [wsTable, alookup_aupdate_self, hws]
          exact filter_aupdate _ _ _
        · simp only [wsTable, alookup_aupdate_self, hws]
          exact congrArg _ (filter_aupdate _ _ _)
      | some mit =>
        cases mit with
        | table es => simp [validManifest, hws, hm] at hv
        | other raw => simp [validManifest, hws, hm] at hv
        | value v =>
          cases v with
          | vString pre suf s => simp [validManifest, hws, hm] at hv
          | vOther raw => simp [validManifest, hws, hm] at hv
          | vArray pre suf elems =>
            have hmem : membersArr doc = elems := by simp [membersArr, wsTable, hws, hm]
            have hstr : memberStrs doc = elems.filterMap asStr := by
              simp [memberStrs, hmem]
            have hany := anyStr_eq_false elems n (by rw [hstr] at hn; exact hn)
            refine ⟨⟨aupdate doc.root "workspace"
              (.table (aupdate ws "members"
                (.value (.vArray pre suf (elems ++ [TomlValue.vString "" "" n])))))⟩,
              ?_, ?_, ?_, ?_, ?_, ?_, ?_⟩
            · simp [add_crate_to_workspace, hws, hm, hany]
            · simp [membersArr, wsTable, hws, hm, alookup_aupdate_self]
            · simp [memberStrs, membersArr, wsTable, hws, hm, alookup_aupdate_self,
                List.filterMap_append, asStr, List.count_append, List.filterMap_cons]
            · exact filter_aupdate _ _ _
            · exact congrArg _ (filter_aupdate _ _ _)
            · simp only [wsTable, alookup_aupdate_self, hws]
              exact filter_aupdate _ _ _
            · simp only [wsTable, alookup_aupdate_self, hws]
              exact congrArg _ (filter_aupdate _ _ _)

/-- C1 witness: a concrete valid manifest and a fresh crate name. -/
theorem add_crate_appends_and_preserves_witness :
    validManifest ⟨[("workspace", .table [("members",
        .value (.vArray " " "" [TomlValue.vString " " "" "day01"]))])]⟩ = true ∧
    "day02" ∉ memberStrs ⟨[("workspace", .table [("members",
        .value (.vArray " " "" [TomlValue.vString " " "" "day01"]))])]⟩ ∧
    ∃ doc',
      add_crate_to_workspace ⟨true, []⟩ ⟨true, ["c", "Cargo.toml"]⟩
          ⟨[("workspace", .table [("members",
            .value (.vArray " " "" [TomlValue.vString " " "" "day01"]))])]⟩ "day02" ⟨[], []⟩
        = (.ok doc', fsWrite ⟨[], []⟩ (absolutize ⟨true, []⟩ ⟨true, ["c", "Cargo.toml"]⟩)
            (strBytes (docToString doc'))) ∧
      membersArr doc' = membersArr ⟨[("workspace", .table [("members",
        .value (.vArray " " "" [TomlValue.vString " " "" "day01"]))])]⟩
          ++ [TomlValue.vString "" "" "day02"] ∧
      (memberStrs doc').count "day02" = (memberStrs ⟨[("workspace", .table [("members",
        .value (.vArray " " "" [TomlValue.vString " " "" "day01"]))])]⟩).count "day02" + 1 ∧
      (⟨[("workspace", .table [("members",
        .value (.vArray " " "" [TomlValue.vString " " "" "day01"]))])]⟩ : Document).root.filter
          (fun e => !(e.1 == "workspace"))
        = (⟨[("workspace", .table [("members",
        .value (.vArray " " "" [TomlValue.vString " " "" "day01"]))])]⟩ : Document).root.filter
          (fun e => !(e.1 == "workspace")) := by
  refine ⟨rfl, by decide, ?_⟩
  obtain ⟨doc', h1, h2, h3, h4, _⟩ := add_crate_appends_and_preserves ⟨true, []⟩
    ⟨true, ["c", "Cargo.toml"]⟩
    ⟨[("workspace", .table [("members",
      .value (.vArray " " "" [TomlValue.vString " " "" "day01"]))])]⟩ "day02" ⟨[], []⟩
    rfl (by decide)
  exact ⟨doc', h1, h2, h3, rfl⟩

/-- C2: when the crate name is already a string element of
`workspace.members`, `add_crate_to_workspace` fails with
`CrateAlreadyExists` and the filesystem — the backing manifest file — is
unchanged. -/
theorem add_crate_duplicate (cwd path : FPath) (doc : Document) (n : String)
    (fs : FS) (hn : n ∈ memberStrs doc) :
    add_crate_to_workspace cwd path doc n fs = (.error (.crateAlreadyExists n), fs) := by
  cases hws : alookup doc.root "workspace" with
  | none => simp [memberStrs, membersArr, wsTable, hws, alookup] at hn
  | some it =>
    cases it with
    | value v => simp [memberStrs, membersArr, wsTable, hws, alookup] at hn
    | other raw => simp [memberStrs, membersArr, wsTable, hws, alookup] at hn
    | table ws =>
      cases hm : alookup ws "members" with
      | none => simp [memberStrs, membersArr, wsTable, hws, hm] at hn
      | some mit =>
        cases mit with
        | table es => simp [memberStrs, membersArr, wsTable, hws, hm] at hn
        | other raw => simp [memberStrs, membersArr, wsTable, hws, hm] at hn
        | value v =>
          cases v with
          | vString pre suf s => simp [memberStrs, membersArr, wsTable, hws, hm] at hn
          | vOther raw => simp [memberStrs, membersArr, wsTable, hws, hm] at hn
          | vArray pre suf elems =>
            have hstr : memberStrs doc = elems.filterMap asStr := by
              simp [memberStrs, membersArr, wsTable, hws, hm]
            have hany := anyStr_eq_true elems n (by rw [hstr] at hn; exact hn)
            simp [add_crate_to_workspace, hws, hm, hany]

/-- C2 witness: a concrete manifest already containing the crate name. -/
theorem add_crate_duplicate_witness :
    "day01" ∈ memberStrs ⟨[("workspace", .table [("members",
        .value (.vArray " " "" [TomlValue.vString " " "" "day01"]))])]⟩ ∧
    add_crate_to_workspace ⟨true, []⟩ ⟨true, ["c", "Cargo.toml"]⟩
        ⟨[("workspace", .table [("members",
          .value (.vArray " " "" [TomlValue.vString " " "" "day01"]))])]⟩ "day01"
        ⟨[(⟨true, ["c", "Cargo.toml"]⟩, [0])], []⟩
      = (.error (.crateAlreadyExists "day01"), ⟨[(⟨true, ["c", "Cargo.toml"]⟩, [0])], []⟩) :=
  ⟨by decide, add_crate_duplicate ⟨true, []⟩ ⟨true, ["c", "Cargo.toml"]⟩
    ⟨[("workspace", .table [("members",
      .value (.vArray " " "" [TomlValue.vString " " "" "day01"]))])]⟩ "day01"
    ⟨[(⟨true, ["c", "Cargo.toml"]⟩, [0])], []⟩ (by decide)⟩

/-- C9: non-string elements of the `workspace.members` array do not make the
duplicate check fail with `MalformedToml`, never count as a match for the
crate name, and the new name is appended after them. -/
theorem add_crate_ignores_non_strings (cwd path : FPath)
    (root ws : List (String × TomlItem)) (pre suf : String)
    (elems : List TomlValue) (n : String) (fs : FS)
    (hws : alookup root "workspace" = some (.table ws))
    (hm : alookup ws "members" = some (.value (.vArray pre suf elems)))
    (hn : n ∉ elems.filterMap asStr) :
    ∃ doc',
      add_crate_to_workspace cwd path ⟨root⟩ n fs
        = (.ok doc', fsWrite fs (absolutize cwd path) (strBytes (docToString doc'))) ∧
      membersArr doc' = elems ++ [TomlValue.vString "" "" n] := by
  have hany := anyStr_eq_false elems n hn
  refine ⟨⟨aupdate root "workspace"
    (.table (aupdate ws "members"
      (.value (.vArray pre suf (elems ++ [TomlValue.vString "" "" n])))))⟩, ?_, ?_⟩
  · simp [add_crate_to_workspace, hws, hm, hany]
  · simp [membersArr, wsTable, alookup_aupdate_self]

/-- C9 witness: a members array holding a non-string (integer-like) entry. -/
theorem add_crate_ignores_non_strings_witness :
    alookup [("workspace", TomlItem.table [("members",
        .value (.vArray "" "" [TomlValue.vOther "17", TomlValue.vString " " "" "day01"]))])]
        "workspace"
      = some (.table [("members",
        .value (.vArray "" "" [TomlValue.vOther "17", TomlValue.vString " " "" "day01"]))]) ∧
    "day02" ∉ ([TomlValue.vOther "17", TomlValue.vString " " "" "day01"]).filterMap asStr ∧
    ∃ doc',
      add_crate_to_workspace ⟨true, []⟩ ⟨true, ["c", "Cargo.toml"]⟩
          ⟨[("workspace", TomlItem.table [("members",
            .value (.vArray "" "" [TomlValue.vOther "17", TomlValue.vString " " "" "day01"]))])]⟩
          "day02" ⟨[], []⟩
        = (.ok doc', fsWrite ⟨[], []⟩ (absolutize ⟨true, []⟩ ⟨true, ["c", "Cargo.toml"]⟩)
            (strBytes (docToString doc'))) ∧
      membersArr doc'
        = [TomlValue.vOther "17", TomlValue.vString " " "" "day01"]
            ++ [TomlValue.vString "" "" "day02"] := by
  refine ⟨rfl, by decide, ?_⟩
  exact add_crate_ignores_non_strings ⟨true, []⟩ ⟨true, ["c", "Cargo.toml"]⟩
    [("workspace", TomlItem.table [("members",
      .value (.vArray "" "" [TomlValue.vOther "17", TomlValue.vString " " "" "day01"]))])]
    [("members", .value (.vArray "" "" [TomlValue.vOther "17", TomlValue.vString " " "" "day01"]))]
    "" "" [TomlValue.vOther "17", TomlValue.vString " " "" "day01"] "day02" ⟨[], []⟩
    rfl rfl (by decide)

/-! ## Line-splitting lemmas for the line augmenter -/

theorem fsRead_fsWrite_self (fs : FS) (p : FPath) (v : List Nat) :
    fsRead (fsWrite fs p v) p = some v :=
  alookup_aupdate_self fs.files p v

theorem fsRead_fsWrite_ne (fs : FS) (p q : FPath) (v : List Nat) (h : q ≠ p) :
    fsRead (fsWrite fs p v) q = fsRead fs q :=
  alookup_aupdate_ne fs.files p q v h

theorem linesOf_ne_nil (b : Nat) (rest : List Nat) : linesOf (b :: rest) ≠ [] := by
  by_cases hb : b = 10
  · simp [linesOf, hb]
  · cases hr : linesOf rest with
    | nil => simp [linesOf, hb, hr]
    | cons l ls => simp [linesOf, hb, hr]

theorem linesOf_single (u : List Nat) (h10 : 10 ∉ u) (hne : u ≠ []) :
    linesOf u = [u] := by
  induction u with
  | nil => exact absurd rfl hne
  | cons b rest ih =>
    have hb : ¬ b = 10 := fun h => h10 (by simp [h])
    by_cases hr : rest = []
    · subst hr; simp [linesOf, hb]
    · have h10' : 10 ∉ rest := fun hm => h10 (List.mem_cons_of_mem _ hm)
      simp [linesOf, hb, ih h10' hr]

theorem linesOf_term (L : List Nat) (h : 10 ∉ L) :
    linesOf (L ++ [10]) = [L ++ [10]] := by
  induction L with
  | nil => simp [linesOf]
  | cons b rest ih =>
    have hb : ¬ b = 10 := fun hx => h (by simp [hx])
    have h' : 10 ∉ rest := fun hm => h (List.mem_cons_of_mem _ hm)
    simp [linesOf, hb, ih h']

theorem linesOf_cons_ten (w : List Nat) : linesOf (10 :: w) = [10] :: linesOf w := by
  simp [linesOf]

theorem linesOf_cons_of_ne (x : Nat) (w : List Nat) (hx : ¬ x = 10) :
    linesOf (x :: w)
      = match linesOf w with
        | [] => [[x]]
        | l :: ls => (x :: l) :: ls := by
  simp [linesOf, hx]

theorem linesOf_append_of_term (a : List Nat) (b : List Nat)
    (ha : a.getLast? = some 10) :
    linesOf (a ++ b) = linesOf a ++ linesOf b := by
  induction a with
  | nil => simp at ha
  | cons x xs ih =>
    cases xs with
    | nil =>
      have hx : x = 10 := by simpa using ha
      subst hx
      simp [linesOf]
    | cons y ys =>
      have ha' : (y :: ys).getLast? = some 10 := by
        rw [List.getLast?_cons_cons] at ha; exact ha
      have ih' := ih ha'
      by_cases hx : x = 10
      · subst hx
        rw [List.cons_append, linesOf_cons_ten, ih', linesOf_cons_ten,
          List.cons_append]
      · cases hys : linesOf (y :: ys) with
        | nil => exact absurd hys (linesOf_ne_nil _ _)
        | cons hd tl =>
          rw [List.cons_append, linesOf_cons_of_ne x ((y :: ys) ++ b) hx,
            linesOf_cons_of_ne x (y :: ys) hx, ih', hys]
          rfl

theorem decompose_unterminated (c : List Nat) (h1 : c ≠ [])
    (h2 : c.getLast? ≠ some 10) :
    ∃ c0 u, c = c0 ++ u ∧ (c0 = [] ∨ c0.getLast? = some 10) ∧ u ≠ [] ∧ 10 ∉ u := by
  induction c with
  | nil => exact absurd rfl h1
  | cons x xs ih =>
    by_cases hxs : xs = []
    · subst hxs
      have hx : x ≠ 10 := by
        intro h; apply h2; simp [h]
      refine ⟨[], [x], by simp, Or.inl rfl, by simp, ?_⟩
      simp only [List.mem_singleton]
      exact fun h => hx h.symm
    · have h2' : xs.getLast? ≠ some 10 := by
        intro h
        apply h2
        cases xs with
        | nil => exact absurd rfl hxs
        | cons y ys => rw [List.getLast?_cons_cons]; exact h
      obtain ⟨c0, u, hc, hc0, hu, h10u⟩ := ih hxs h2'
      cases hc0 with
      | inl h0 =>
        subst h0
        simp only [List.nil_append] at hc
        by_cases hx : x = 10
        · exact ⟨[x], u, by simp [hc], Or.inr (by simp [hx]), hu, h10u⟩
        · refine ⟨[], x :: u, by simp [hc], Or.inl rfl, by simp, ?_⟩
          intro hm
          rcases List.mem_cons.mp hm with h | h
          · exact hx h.symm
          · exact h10u h
      | inr h0 =>
        refine ⟨x :: c0, u, by simp [hc], Or.inr ?_, hu, h10u⟩
        cases c0 with
        | nil => simp at h0
        | cons z zs => rw [List.getLast?_cons_cons]; exact h0

theorem containsLine_iff (c l : List Nat) :
    containsLine c l = true ↔ l ∈ linesOf c := by
  simp only [containsLine, List.any_eq_true, decide_eq_true_eq]
  constructor
  · rintro ⟨x, hx, rfl⟩; exact hx
  · intro h; exact ⟨l, h, rfl⟩

theorem containsLine_eq_false_iff (c l : List Nat) :
    containsLine c l = false ↔ l ∉ linesOf c := by
  rw [← Bool.not_eq_true, not_iff_not]
  exact containsLine_iff c l

theorem countLine_append_term (c L : List Nat) (hL : 10 ∉ L)
    (hc : c = [] ∨ c.getLast? = some 10) :
    countLine (c ++ (L ++ [10])) (L ++ [10]) = countLine c (L ++ [10]) + 1 := by
  cases hc with
  | inl h =>
    subst h
    simp [countLine, linesOf_term L hL, linesOf]
  | inr h =>
    rw [countLine, linesOf_append_of_term c _ h, linesOf_term L hL,
      List.count_append]
    simp [countLine]

theorem countLine_append_unterm (c L : List Nat) (hL : 10 ∉ L)
    (h1 : c ≠ []) (h2 : c.getLast? ≠ some 10)
    (hcnt : countLine c (L ++ [10]) = 0) :
    countLine (c ++ (L ++ [10])) (L ++ [10]) = 0 ∧
    (c ++ (L ++ [10])).getLast? = some 10 := by
  obtain ⟨c0, u, hc, hc0, hu, h10u⟩ := decompose_unterminated c h1 h2
  have hlines : linesOf c = linesOf c0 ++ [u] := by
    rw [hc]
    rcases hc0 with h0 | h0
    · rw [h0]
      simp [linesOf_single u h10u hu, linesOf]
    · rw [linesOf_append_of_term c0 u h0, linesOf_single u h10u hu]
  have hc0cnt : (linesOf c0).count (L ++ [10]) = 0 := by
    have h' := hcnt
    rw [countLine, hlines, List.count_append] at h'
    exact Nat.eq_zero_of_add_eq_zero_right h'
  have h10ul : 10 ∉ u ++ L := by
    intro hm
    rcases List.mem_append.mp hm with h | h
    · exact h10u h
    · exact hL h
  have hterm : linesOf (u ++ (L ++ [10])) = [u ++ (L ++ [10])] := by
    have h' := linesOf_term (u ++ L) h10ul
    rwa [List.append_assoc] at h'
  have hlines2 : linesOf (c ++ (L ++ [10])) = linesOf c0 ++ [u ++ (L ++ [10])] := by
    rw [hc, List.append_assoc]
    rcases hc0 with h0 | h0
    · rw [h0]
      simp [hterm, linesOf]
    · rw [linesOf_append_of_term c0 _ h0, hterm]
  have hne2 : u ++ (L ++ [10]) ≠ L ++ [10] := by
    intro h
    have hlen := congrArg List.length h
    simp only [List.length_append] at hlen
    have hul : u.length = 0 := by omega
    exact hu (List.length_eq_zero.mp hul)
  constructor
  · rw [countLine, hlines2, List.count_append]
    have hsing : List.count (L ++ [10]) [u ++ (L ++ [10])] = 0 := by
      simp [List.count_cons, List.count_nil, hne2]
    rw [hc0cnt, hsing]
  · rw [← List.append_assoc]
    exact List.getLast?_concat _

theorem containsLine_term_self (L : List Nat) (hL : 10 ∉ L) :
    containsLine (L ++ [10]) (L ++ [10]) = true := by
  rw [containsLine_iff, linesOf_term L hL]
  simp

theorem append_step_absent (cwd path : FPath) (L : List Nat) (fs : FS)
    (hread : fsRead fs (absolutize cwd path) = none) :
    (append_if_not_present cwd path L fs).2
      = fsWrite fs (absolutize cwd path) (L ++ [10]) := by
  simp [append_if_not_present, hread]

theorem append_step_contains (cwd path : FPath) (L : List Nat) (fs : FS)
    (c : List Nat) (hread : fsRead fs (absolutize cwd path) = some c)
    (hcont : containsLine c (L ++ [10]) = true) :
    (append_if_not_present cwd path L fs).2 = fs := by
  simp [append_if_not_present, hread, hcont]

theorem append_step_append (cwd path : FPath) (L : List Nat) (fs : FS)
    (c : List Nat) (hread : fsRead fs (absolutize cwd path) = some c)
    (hcont : containsLine c (L ++ [10]) = false) :
    (append_if_not_present cwd path L fs).2
      = fsWrite fs (absolutize cwd path) (c ++ (L ++ [10])) := by
  simp [append_if_not_present, hread, hcont]

/-- C4 (amended): when the line bytes contain no terminator and the
newline-terminated line occurs at most once in the existing file, calling
`append_if_not_present` twice with the same arguments leaves the file
containing the newline-terminated line exactly once; and one call on a
non-existent path creates the file containing exactly the line followed by
the terminator. -/
theorem append_twice_exactly_once (cwd path : FPath) (L : List Nat) (fs : FS)
    (hL : 10 ∉ L)
    (hcnt : countLine ((fsRead fs (absolutize cwd path)).getD []) (L ++ [10]) ≤ 1) :
    countLine ((fsRead ((append_if_not_present cwd path L
          ((append_if_not_present cwd path L fs).2)).2)
        (absolutize cwd path)).getD []) (L ++ [10]) = 1 ∧
    (fsRead fs (absolutize cwd path) = none →
      fsRead ((append_if_not_present cwd path L fs).2) (absolutize cwd path)
        = some (L ++ [10])) := by
  have hone : countLine (L ++ [10]) (L ++ [10]) = 1 := by
    rw [countLine, linesOf_term L hL]
    simp
  cases hread : fsRead fs (absolutize cwd path) with
  | none =>
    have hfs1 := append_step_absent cwd path L fs hread
    have hread1 : fsRead ((append_if_not_present cwd path L fs).2) (absolutize cwd path)
        = some (L ++ [10]) := by
      rw [hfs1]
      exact fsRead_fsWrite_self _ _ _
    refine ⟨?_, fun _ => hread1⟩
    have hfs2 := append_step_contains cwd path L _ _ hread1 (containsLine_term_self L hL)
    rw [hfs2, hread1]
    simpa using hone
  | some c =>
    refine ⟨?_, fun h => absurd h (by simp)⟩
    have hcc : countLine c (L ++ [10]) ≤ 1 := by
      rw [hread] at hcnt
      simpa using hcnt
    have hsplit : countLine c (L ++ [10]) = 0 ∨ countLine c (L ++ [10]) = 1 := by
      omega
    rcases hsplit with hzero | hone'
    · have hnm : (L ++ [10]) ∉ linesOf c := by
        rw [countLine] at hzero
        exact List.count_eq_zero.mp hzero
      have hcont : containsLine c (L ++ [10]) = false :=
        (containsLine_eq_false_iff _ _).mpr hnm
      have hfs1 := append_step_append cwd path L fs c hread hcont
      have hread1 : fsRead ((append_if_not_present cwd path L fs).2) (absolutize cwd path)
          = some (c ++ (L ++ [10])) := by
        rw [hfs1]
        exact fsRead_fsWrite_self _ _ _
      by_cases hterm : c = [] ∨ c.getLast? = some 10
      · have hc1 : countLine (c ++ (L ++ [10])) (L ++ [10]) = 1 := by
          rw [countLine_append_term c L hL hterm, hzero]
        have hmem1 : (L ++ [10]) ∈ linesOf (c ++ (L ++ [10])) := by
          by_contra hx
          rw [countLine, List.count_eq_zero.mpr hx] at hc1
          exact Nat.zero_ne_one hc1
        have hcont1 : containsLine (c ++ (L ++ [10])) (L ++ [10]) = true :=
          (containsLine_iff _ _).mpr hmem1
        have hfs2 := append_step_contains cwd path L _ _ hread1 hcont1
        rw [hfs2, hread1]
        simpa using hc1
      · push_neg at hterm
        obtain ⟨hc0, hcl⟩ := hterm
        obtain ⟨hcnt1, hterm1⟩ := countLine_append_unterm c L hL hc0 hcl hzero
        have hnm1 : (L ++ [10]) ∉ linesOf (c ++ (L ++ [10])) := by
          rw [countLine] at hcnt1
          exact List.count_eq_zero.mp hcnt1
        have hcont1 : containsLine (c ++ (L ++ [10])) (L ++ [10]) = false :=
          (containsLine_eq_false_iff _ _).mpr hnm1
        have hfs2 := append_step_append cwd path L _ _ hread1 hcont1
        have hread2 : fsRead ((append_if_not_present cwd path L
            ((append_if_not_present cwd path L fs).2)).2) (absolutize cwd path)
            = some ((c ++ (L ++ [10])) ++ (L ++ [10])) := by
          rw [hfs2]
          exact fsRead_fsWrite_self _ _ _
        rw [hread2]
        have hfin := countLine_append_term (c ++ (L ++ [10])) L hL (Or.inr hterm1)
        simp only [Option.getD_some]
        rw [hfin, hcnt1]
    · have hmem : (L ++ [10]) ∈ linesOf c := by
        by_contra hx
        rw [countLine, List.count_eq_zero.mpr hx] at hone'
        exact Nat.zero_ne_one hone'
      have hcont : containsLine c (L ++ [10]) = true :=
        (containsLine_iff _ _).mpr hmem
      have hfs1 := append_step_contains cwd path L fs c hread hcont
      have hfs2 : (append_if_not_present cwd path L
          ((append_if_not_present cwd path L fs).2)).2 = fs := by
        rw [hfs1]
        exact append_step_contains cwd path L fs c hread hcont
      rw [hfs2, hread]
      simpa using hone'

/-- C4 witness: a fresh file at a concrete path. -/
theorem append_twice_exactly_once_witness :
    (10 : Nat) ∉ ([97] : List Nat) ∧
    countLine ((fsRead (⟨[], []⟩ : FS) (absolutize ⟨true, []⟩ ⟨true, ["g"]⟩)).getD [])
      ([97] ++ [10]) ≤ 1 ∧
    countLine ((fsRead ((append_if_not_present ⟨true, []⟩ ⟨true, ["g"]⟩ [97]
          ((append_if_not_present ⟨true, []⟩ ⟨true, ["g"]⟩ [97] ⟨[], []⟩).2)).2)
        (absolutize ⟨true, []⟩ ⟨true, ["g"]⟩)).getD []) ([97] ++ [10]) = 1 :=
  ⟨by decide, by decide,
    (append_twice_exactly_once ⟨true, []⟩ ⟨true, ["g"]⟩ [97] ⟨[], []⟩
      (by decide) (by decide)).1⟩

/-- C4 counterexample: a file already containing the line twice; two calls
leave two occurrences, not one. -/
theorem append_twice_not_always_once :
    ¬ (countLine ((fsRead ((append_if_not_present ⟨true, []⟩ ⟨true, ["g"]⟩ [97]
          ((append_if_not_present ⟨true, []⟩ ⟨true, ["g"]⟩ [97]
            ⟨[(⟨true, ["g"]⟩, [97, 10, 97, 10])], []⟩).2)).2)
        (absolutize ⟨true, []⟩ ⟨true, ["g"]⟩)).getD []) ([97] ++ [10]) = 1) := by
  decide

/-- C10 (amended): when the file's final line equals the line bytes but lacks
the trailing terminator, and the newline-terminated line does not occur among
the earlier (terminated) lines, the line is considered absent and is appended
again. -/
theorem append_unterminated_tail (cwd path : FPath) (L c0 : List Nat) (fs : FS)
    (hread : fsRead fs (absolutize cwd path) = some (c0 ++ L))
    (hc0 : c0 = [] ∨ c0.getLast? = some 10)
    (hLne : L ≠ []) (hL10 : 10 ∉ L)
    (hnot : (L ++ [10]) ∉ linesOf c0) :
    containsLine (c0 ++ L) (L ++ [10]) = false ∧
    (append_if_not_present cwd path L fs).2
      = fsWrite fs (absolutize cwd path) ((c0 ++ L) ++ (L ++ [10])) := by
  have hlines : linesOf (c0 ++ L) = linesOf c0 ++ [L] := by
    rcases hc0 with h0 | h0
    · rw [h0]
      simp [linesOf_single L hL10 hLne, linesOf]
    · rw [linesOf_append_of_term c0 L h0, linesOf_single L hL10 hLne]
  have hLne2 : L ≠ L ++ [10] := by
    intro h
    have hlen := congrArg List.length h
    simp at hlen
  have hcont : containsLine (c0 ++ L) (L ++ [10]) = false := by
    rw [containsLine_eq_false_iff, hlines]
    intro hm
    rcases List.mem_append.mp hm with h | h
    · exact hnot h
    · rw [List.mem_singleton] at h
      exact hLne2 h.symm
  refine ⟨hcont, ?_⟩
  simp [append_if_not_present, hread, hcont]

/-- C10 witness: file `"x\na"` and line `"a"`: the unterminated final `a`
does not count as present, so the line is appended. -/
theorem append_unterminated_tail_witness :
    fsRead (⟨[(⟨true, ["g"]⟩, [120, 10, 97])], []⟩ : FS)
      (absolutize ⟨true, []⟩ ⟨true, ["g"]⟩) = some ([120, 10] ++ [97]) ∧
    containsLine ([120, 10] ++ [97]) ([97] ++ [10]) = false ∧
    (append_if_not_present ⟨true, []⟩ ⟨true, ["g"]⟩ [97]
        ⟨[(⟨true, ["g"]⟩, [120, 10, 97])], []⟩).2
      = fsWrite ⟨[(⟨true, ["g"]⟩, [120, 10, 97])], []⟩
        (absolutize ⟨true, []⟩ ⟨true, ["g"]⟩) (([120, 10] ++ [97]) ++ ([97] ++ [10])) := by
  have h := append_unterminated_tail ⟨true, []⟩ ⟨true, ["g"]⟩ [97] [120, 10]
    ⟨[(⟨true, ["g"]⟩, [120, 10, 97])], []⟩ (by decide) (Or.inr (by decide))
    (by decide) (by decide) (by decide)
  exact ⟨by decide, h.1, h.2⟩

/-- C10 counterexample: in the file `"a\na"` the final line `a` lacks its
terminator, yet nothing is appended, because the terminated line `"a\n"`
already occurs earlier. -/
theorem append_unterminated_tail_cex :
    (linesOf [97, 10, 97]).getLast? = some [97] ∧
    ([97, 10, 97] : List Nat).getLast? = some 97 ∧ (97 : Nat) ≠ 10 ∧
    (append_if_not_present ⟨true, []⟩ ⟨true, ["g"]⟩ [97]
        ⟨[(⟨true, ["g"]⟩, [97, 10, 97])], []⟩).2
      = ⟨[(⟨true, ["g"]⟩, [97, 10, 97])], []⟩ := by
  decide

/-- C3: a path-kind reconciliation with a desired and a configured path whose
absolutized forms differ fails with the config/CLI conflict error carrying
both paths, and neither the configured value nor the filesystem is touched. -/
theorem ensure_path_conflict (cwd d c : FPath) (fs : FS)
    (h : absolutize cwd d ≠ absolutize cwd c) :
    ensure_path cwd (some d) (some c) fs
      = (.error (.configCliConflict d.display c.display), some c, fs) := by
  simp [ensure_path, h]

/-- C3 witness: two distinct concrete absolute paths. -/
theorem ensure_path_conflict_witness :
    absolutize ⟨true, []⟩ ⟨true, ["a"]⟩ ≠ absolutize ⟨true, []⟩ ⟨true, ["b"]⟩ ∧
    ensure_path ⟨true, []⟩ (some ⟨true, ["a"]⟩) (some ⟨true, ["b"]⟩) ⟨[], []⟩
      = (.error (.configCliConflict (FPath.display ⟨true, ["a"]⟩)
          (FPath.display ⟨true, ["b"]⟩)), some ⟨true, ["b"]⟩, ⟨[], []⟩) :=
  ⟨by decide,
    ensure_path_conflict ⟨true, []⟩ ⟨true, ["a"]⟩ ⟨true, ["b"]⟩ ⟨[], []⟩ (by decide)⟩

/-- C6 counterexample: with both skip flags set but no manifest file in the
implementation directory, `initialize` fails with `NoCargoToml` instead of
succeeding as a no-op. -/
theorem initDay_requires_manifest :
    (initDay (fun _ => none) (fun _ => .error .requestingInput)
        (fun f => (.ok (), f)) ⟨true, []⟩ ⟨[]⟩ 2020 1 true true ⟨[], []⟩).1
      = .error .noCargoToml := by
  rfl

/-- C6 (amended): provided the manifest file exists and parses, `initialize`
with both skip flags set succeeds and performs no side effects: the
filesystem is returned unchanged. -/
theorem initDay_skip_noop (parse : List Nat → Option Document)
    (fetch : String → Except Error (List Nat))
    (getInp : FS → (Except Error Unit) × FS)
    (cwd : FPath) (config : Config) (year day : Nat) (fs : FS)
    (bs : List Nat) (doc : Document)
    (hread : fsRead fs (absolutize cwd
      ((config.implementation cwd year).join (toFPath "Cargo.toml"))) = some bs)
    (hparse : parse bs = some doc) :
    initDay parse fetch getInp cwd config year day true true fs = (.ok (), fs) := by
  have hex : existsPath fs (absolutize cwd
      ((config.implementation cwd year).join (toFPath "Cargo.toml"))) = true := by
    simp [existsPath, hread]
  have hget : get_cargo_toml parse cwd config year fs
      = .ok ((config.implementation cwd year).join (toFPath "Cargo.toml"), doc) := by
    simp [get_cargo_toml, hex, hread, hparse]
  simp [initDay, hget]

/-- C6 witness: a concrete filesystem holding a parsable manifest. -/
theorem initDay_skip_noop_witness :
    fsRead (⟨[(⟨true, ["Cargo.toml"]⟩, [0])], []⟩ : FS)
      (absolutize ⟨true, []⟩
        ((Config.implementation ⟨[]⟩ ⟨true, []⟩ 2020).join (toFPath "Cargo.toml")))
      = some [0] ∧
    initDay (fun _ => some ⟨[]⟩) (fun _ => .error .requestingInput)
        (fun f => (.ok (), f)) ⟨true, []⟩ ⟨[]⟩ 2020 1 true true
        ⟨[(⟨true, ["Cargo.toml"]⟩, [0])], []⟩
      = (.ok (), ⟨[(⟨true, ["Cargo.toml"]⟩, [0])], []⟩) :=
  ⟨by decide,
    initDay_skip_noop (fun _ => some ⟨[]⟩) (fun _ => .error .requestingInput)
      (fun f => (.ok (), f)) ⟨true, []⟩ ⟨[]⟩ 2020 1
      ⟨[(⟨true, ["Cargo.toml"]⟩, [0])], []⟩ [0] ⟨[]⟩ (by decide) rfl⟩

/-! ## Template-ensuring frame lemmas -/

theorem template_url_inj (a b : String) (h : template_url a = template_url b) :
    a = b := by
  have hd := congrArg String.data h
  simp [template_url, String.data_append] at hd
  exact String.ext hd

theorem fsRead_create_dir_all (fs : FS) (par p : FPath) :
    fsRead (create_dir_all fs par) p = fsRead fs p := rfl

theorem length_le_of_mem_ancestorsOf (p q : FPath) (h : q ∈ ancestorsOf p) :
    q.comps.length ≤ p.comps.length := by
  simp only [ancestorsOf, List.mem_map, List.mem_range] at h
  obtain ⟨k, hk, rfl⟩ := h
  simp [List.length_take]

theorem existsPath_create_parent (fs : FS) (tp : FPath)
    (hex : existsPath fs tp = false) :
    existsPath (match parentP tp with
      | some par => create_dir_all fs par
      | none => fs) tp = false := by
  cases hc : tp.comps with
  | nil =>
    simp only [parentP, hc]
    exact hex
  | cons x xs =>
    have hpar : parentP tp = some ⟨tp.abs, tp.comps.dropLast⟩ := by
      simp [parentP, hc]
    rw [hpar]
    simp only [existsPath, create_dir_all, Bool.or_eq_false_iff] at hex ⊢
    refine ⟨hex.1, ?_⟩
    rw [List.any_append, Bool.or_eq_false_iff]
    refine ⟨hex.2, ?_⟩
    rw [List.any_eq_false]
    intro q hq
    have hlen := length_le_of_mem_ancestorsOf _ q hq
    simp only [List.length_dropLast, hc] at hlen
    intro hde
    have hqe : q = tp := of_decide_eq_true hde
    rw [hqe, hc] at hlen
    simp only [List.length_cons] at hlen
    omega

theorem ensure_loop_frame (fetch : String → Except Error (List Nat))
    (cwd tdir : FPath) (ts : List String) :
    ∀ (fs : FS) (log : List String),
      (∀ p v, fsRead fs p = some v →
        fsRead (ensure_loop fetch cwd tdir ts fs log).2.1 p = some v) ∧
      (∀ t, (∃ v, fsRead fs (absolutize cwd (tdir.join (toFPath t))) = some v) →
        template_url t ∉ log →
        template_url t ∉ (ensure_loop fetch cwd tdir ts fs log).2.2) := by
  induction ts with
  | nil =>
    intro fs log
    exact ⟨fun p v h => by simpa [ensure_loop] using h,
      fun t _ hnl => by simpa [ensure_loop] using hnl⟩
  | cons t' ts ih =>
    intro fs log
    by_cases hex : existsPath fs (absolutize cwd (tdir.join (toFPath t'))) = true
    · have hloop : ensure_loop fetch cwd tdir (t' :: ts) fs log
          = ensure_loop fetch cwd tdir ts fs log := by
        simp [ensure_loop, hex]
      rw [hloop]
      exact ih fs log
    · rw [Bool.not_eq_true] at hex
      have hnofile : fsRead fs (absolutize cwd (tdir.join (toFPath t'))) = none := by
        rw [existsPath, Bool.or_eq_false_iff] at hex
        exact Option.not_isSome_iff_eq_none.mp (by simp [hex.1])
      have hurlne : ∀ t, (∃ v, fsRead fs (absolutize cwd (tdir.join (toFPath t))) = some v) →
          template_url t ≠ template_url t' := by
        rintro t ⟨v, hv⟩ hequ
        have := template_url_inj _ _ hequ
        rw [this] at hv
        rw [hnofile] at hv
        cases hv
      cases hf : fetch (template_url t') with
      | error e =>
        have hloop : ensure_loop fetch cwd tdir (t' :: ts) fs log
            = (.error e,
               (match parentP (absolutize cwd (tdir.join (toFPath t'))) with
                | some par => create_dir_all fs par
                | none => fs),
               log ++ [template_url t']) := by
          simp [ensure_loop, hex, hf]
        rw [hloop]
        constructor
        · intro p v h
          cases hp : parentP (absolutize cwd (tdir.join (toFPath t'))) <;> simpa [hp] using h
        · rintro t hv hnl
          simp only [List.mem_append, List.mem_singleton]
          rintro (h | h)
          · exact hnl h
          · exact hurlne t hv h
      | ok bytes =>
        have hex1 := existsPath_create_parent fs _ hex
        have hloop : ensure_loop fetch cwd tdir (t' :: ts) fs log
            = ensure_loop fetch cwd tdir ts
                (fsWrite (match parentP (absolutize cwd (tdir.join (toFPath t'))) with
                  | some par => create_dir_all fs par
                  | none => fs) (absolutize cwd (tdir.join (toFPath t'))) bytes)
                (log ++ [template_url t']) := by
          simp [ensure_loop, hex, hf, hex1]
        rw [hloop]
        have hpres : ∀ p v, fsRead fs p = some v →
            fsRead (fsWrite (match parentP (absolutize cwd (tdir.join (toFPath t'))) with
              | some par => create_dir_all fs par
              | none => fs) (absolutize cwd (tdir.join (toFPath t'))) bytes) p = some v := by
          intro p v h
          have hne : p ≠ absolutize cwd (tdir.join (toFPath t')) := by
            intro hpe
            rw [hpe, hnofile] at h
            cases h
          rw [fsRead_fsWrite_ne _ _ _ _ hne]
          cases hp : parentP (absolutize cwd (tdir.join (toFPath t'))) <;> simpa [hp] using h
        obtain ⟨ih1, ih2⟩ := ih
          (fsWrite (match parentP (absolutize cwd (tdir.join (toFPath t'))) with
            | some par => create_dir_all fs par
            | none => fs) (absolutize cwd (tdir.join (toFPath t'))) bytes)
          (log ++ [template_url t'])
        constructor
        · intro p v h
          exact ih1 p v (hpres p v h)
        · rintro t hv hnl
          obtain ⟨v, hvr⟩ := hv
          refine ih2 t ⟨v, hpres _ v hvr⟩ ?_
          simp only [List.mem_append, List.mem_singleton]
          rintro (h | h)
          · exact hnl h
          · exact hurlne t ⟨v, hvr⟩ h

theorem ensure_template_dir_snd (fetch : String → Except Error (List Nat))
    (cwd : FPath) (config : Config) (year : Nat) (fs : FS) :
    (ensure_template_dir fetch cwd config year fs).2
      = (ensure_loop fetch cwd (config.day_template cwd year)
          TEMPLATE_FILES fs []).2 := by
  rcases h : ensure_loop fetch cwd (config.day_template cwd year) TEMPLATE_FILES fs []
    with ⟨r, fs', log⟩
  cases r <;> simp [ensure_template_dir, h]

/-- C8: `ensure_template_dir` never overwrites an existing local template:
for every template name, when a file already exists at its path under the
template directory, its contents are unchanged afterwards and no fetch was
issued for its URL. -/
theorem ensure_templates_never_overwrites
    (fetch : String → Except Error (List Nat)) (cwd : FPath) (config : Config)
    (year : Nat) (fs : FS) (t : String) (v : List Nat)
    (ht : t ∈ TEMPLATE_FILES)
    (hv : fsRead fs (absolutize cwd
      ((config.day_template cwd year).join (toFPath t))) = some v) :
    fsRead (ensure_template_dir fetch cwd config year fs).2.1
        (absolutize cwd ((config.day_template cwd year).join (toFPath t)))
      = some v ∧
    template_url t ∉ (ensure_template_dir fetch cwd config year fs).2.2 := by
  have hsnd := ensure_template_dir_snd fetch cwd config year fs
  obtain ⟨h1, h2⟩ := ensure_loop_frame fetch cwd (config.day_template cwd year)
    TEMPLATE_FILES fs []
  constructor
  · rw [show (ensure_template_dir fetch cwd config year fs).2.1
        = (ensure_loop fetch cwd (config.day_template cwd year) TEMPLATE_FILES fs []).2.1
      from congrArg Prod.fst hsnd]
    exact h1 _ v hv
  · rw [show (ensure_template_dir fetch cwd config year fs).2.2
        = (ensure_loop fetch cwd (config.day_template cwd year) TEMPLATE_FILES fs []).2.2
      from congrArg Prod.snd hsnd]
    exact h2 t ⟨v, hv⟩ (by simp)

/-- C8 witness: a concrete pre-existing `Cargo.toml` template survives with a
failing fetch collaborator and its URL is never requested. -/
theorem ensure_templates_never_overwrites_witness :
    "Cargo.toml" ∈ TEMPLATE_FILES ∧
    fsRead (⟨[(⟨true, ["tpl", "Cargo.toml"]⟩, [1])], []⟩ : FS)
      (absolutize ⟨true, []⟩
        ((Config.day_template ⟨[(2020, ⟨none, none, some ⟨true, ["tpl"]⟩⟩)]⟩
          ⟨true, []⟩ 2020).join (toFPath "Cargo.toml"))) = some [1] ∧
    fsRead (ensure_template_dir (fun _ => .error .requestingInput) ⟨true, []⟩
        ⟨[(2020, ⟨none, none, some ⟨true, ["tpl"]⟩⟩)]⟩ 2020
        ⟨[(⟨true, ["tpl", "Cargo.toml"]⟩, [1])], []⟩).2.1
      (absolutize ⟨true, []⟩
        ((Config.day_template ⟨[(2020, ⟨none, none, some ⟨true, ["tpl"]⟩⟩)]⟩
          ⟨true, []⟩ 2020).join (toFPath "Cargo.toml"))) = some [1] ∧
    template_url "Cargo.toml" ∉ (ensure_template_dir (fun _ => .error .requestingInput)
        ⟨true, []⟩ ⟨[(2020, ⟨none, none, some ⟨true, ["tpl"]⟩⟩)]⟩ 2020
        ⟨[(⟨true, ["tpl", "Cargo.toml"]⟩, [1])], []⟩).2.2 := by
  have h := ensure_templates_never_overwrites (fun _ => .error .requestingInput)
    ⟨true, []⟩ ⟨[(2020, ⟨none, none, some ⟨true, ["tpl"]⟩⟩)]⟩ 2020
    ⟨[(⟨true, ["tpl", "Cargo.toml"]⟩, [1])], []⟩ "Cargo.toml" [1]
    (by decide) (by decide)
  exact ⟨by decide, by decide, h.1, h.2⟩

/-! ## Render lemmas -/

theorem ensure_loop_all_present (fetch : String → Except Error (List Nat))
    (cwd tdir : FPath) (ts : List String) :
    ∀ (fs : FS) (log : List String),
      (∀ t ∈ ts, existsPath fs (absolutize cwd (tdir.join (toFPath t))) = true) →
      ensure_loop fetch cwd tdir ts fs log = (.ok (), fs, log) := by
  induction ts with
  | nil => intro fs log _; rfl
  | cons t' ts ih =>
    intro fs log h
    have hex := h t' (List.mem_cons_self _ _)
    rw [show ensure_loop fetch cwd tdir (t' :: ts) fs log
        = ensure_loop fetch cwd tdir ts fs log by simp [ensure_loop, hex]]
    exact ih fs log (fun t htm => h t (List.mem_cons_of_mem _ htm))

theorem ensure_template_dir_all_present (fetch : String → Except Error (List Nat))
    (cwd : FPath) (config : Config) (year : Nat) (fs : FS)
    (h : ∀ t ∈ TEMPLATE_FILES,
      existsPath fs (absolutize cwd
        ((config.day_template cwd year).join (toFPath t))) = true) :
    ensure_template_dir fetch cwd config year fs
      = (.ok (config.day_template cwd year), fs, []) := by
  simp [ensure_template_dir,
    ensure_loop_all_present fetch cwd (config.day_template cwd year)
      TEMPLATE_FILES fs [] h]

theorem render_loop_dest_exists (cwd tdir ddir : FPath)
    (ctx : List (String × String)) (ts : List String) :
    ∀ (fs : FS),
      (∀ t ∈ ts, ∃ bs, fsRead fs (absolutize cwd (tdir.join (toFPath t))) = some bs ∧
        (renderTemplate (bytesToStr bs) ctx).isSome = true) →
      (∃ t ∈ ts, ∃ v, fsRead fs (absolutize cwd (ddir.join (toFPath t))) = some v) →
      (render_loop cwd tdir ddir ctx ts fs).1
        = .error (.io "opening template destination for writing") ∧
      (∀ p v, fsRead fs p = some v →
        fsRead (render_loop cwd tdir ddir ctx ts fs).2 p = some v) := by
  induction ts with
  | nil =>
    intro fs _ hdst
    simp at hdst
  | cons t' ts ih =>
    intro fs hsrc hdst
    obtain ⟨bs, hbs, hrend⟩ := hsrc t' (List.mem_cons_self _ _)
    obtain ⟨out, hout⟩ := Option.isSome_iff_exists.mp hrend
    by_cases hdx : existsPath fs (absolutize cwd (ddir.join (toFPath t'))) = true
    · have hloop : render_loop cwd tdir ddir ctx (t' :: ts) fs
          = (.error (.io "opening template destination for writing"), fs) := by
        simp [render_loop, hbs, hout, hdx]
      rw [hloop]
      exact ⟨rfl, fun p v h => h⟩
    · rw [Bool.not_eq_true] at hdx
      have hexR : fsRead fs (absolutize cwd (ddir.join (toFPath t'))) = none := by
        rw [existsPath, Bool.or_eq_false_iff] at hdx
        exact Option.not_isSome_iff_eq_none.mp (by simp [hdx.1])
      have hloop : render_loop cwd tdir ddir ctx (t' :: ts) fs
          = render_loop cwd tdir ddir ctx ts
              (fsWrite fs (absolutize cwd (ddir.join (toFPath t'))) (strBytes out)) := by
        simp [render_loop, hbs, hout, hdx]
      rw [hloop]
      have hpres : ∀ p v, fsRead fs p = some v →
          fsRead (fsWrite fs (absolutize cwd (ddir.join (toFPath t')))
            (strBytes out)) p = some v := by
        intro p v h
        have hne : p ≠ absolutize cwd (ddir.join (toFPath t')) := by
          intro hpe
          rw [hpe, hexR] at h
          cases h
        rw [fsRead_fsWrite_ne _ _ _ _ hne]
        exact h
      have hsrc' : ∀ t ∈ ts, ∃ bs',
          fsRead (fsWrite fs (absolutize cwd (ddir.join (toFPath t')))
            (strBytes out)) (absolutize cwd (tdir.join (toFPath t))) = some bs' ∧
          (renderTemplate (bytesToStr bs') ctx).isSome = true := by
        intro t htm
        obtain ⟨bs', hbs', hr'⟩ := hsrc t (List.mem_cons_of_mem _ htm)
        exact ⟨bs', hpres _ bs' hbs', hr'⟩
      have hdst' : ∃ t ∈ ts, ∃ v,
          fsRead (fsWrite fs (absolutize cwd (ddir.join (toFPath t')))
            (strBytes out)) (absolutize cwd (ddir.join (toFPath t))) = some v := by
        obtain ⟨t, htm, v, hv⟩ := hdst
        rcases List.mem_cons.mp htm with rfl | hts
        · rw [hexR] at hv
          cases hv
        · exact ⟨t, hts, v, hpres _ v hv⟩
      obtain ⟨h1, h2⟩ := ih _ hsrc' hdst'
      exact ⟨h1, fun p v h => h2 p v (hpres p v h)⟩

/-- C5: rendering templates into a destination directory that already holds a
file named like one of the templates fails with the destination-exists error
(`Io "opening template destination for writing"`, the concrete form of the
spec's `DestinationExists`), and every such pre-existing destination file
keeps its contents. -/
theorem render_into_existing_dest_fails
    (fetch : String → Except Error (List Nat)) (cwd : FPath) (config : Config)
    (day_dir : FPath) (year day : Nat) (day_name : String) (fs : FS)
    (hsrc : ∀ t ∈ TEMPLATE_FILES, ∃ bs,
      fsRead fs (absolutize cwd
        ((config.day_template cwd year).join (toFPath t))) = some bs ∧
      (renderTemplate (bytesToStr bs) (ctxFor year day day_name)).isSome = true)
    (hdst : ∃ t ∈ TEMPLATE_FILES, ∃ v,
      fsRead fs (absolutize cwd (day_dir.join (toFPath t))) = some v) :
    (render_templates_into fetch cwd config day_dir year day day_name fs).1
      = .error (.io "opening template destination for writing") ∧
    ∀ t ∈ TEMPLATE_FILES, ∀ v,
      fsRead fs (absolutize cwd (day_dir.join (toFPath t))) = some v →
      fsRead (render_templates_into fetch cwd config day_dir year day day_name fs).2.1
        (absolutize cwd (day_dir.join (toFPath t))) = some v := by
  have hEns := ensure_template_dir_all_present fetch cwd config year fs
    (fun t htm => by
      obtain ⟨bs, hbs, _⟩ := hsrc t htm
      simp [existsPath, hbs])
  obtain ⟨h1, h2⟩ := render_loop_dest_exists cwd (config.day_template cwd year)
    day_dir (ctxFor year day day_name) TEMPLATE_FILES fs hsrc hdst
  rcases hrl : render_loop cwd (config.day_template cwd year) day_dir
      (ctxFor year day day_name) TEMPLATE_FILES fs with ⟨r, fs''⟩
  have hmain : render_templates_into fetch cwd config day_dir year day day_name fs
      = (r, fs'', []) := by
    simp [render_templates_into, hEns, hrl]
  rw [hmain]
  rw [hrl] at h1 h2
  exact ⟨h1, fun t _ v hv => h2 _ v hv⟩

/-- C5 witness: all three templates present locally, and a pre-existing
destination `Cargo.toml` in the day directory that survives unchanged. -/
theorem render_into_existing_dest_fails_witness :
    (∃ t ∈ TEMPLATE_FILES, ∃ v,
      fsRead (⟨[(⟨true, ["tpl", "Cargo.toml"]⟩, [120]),
                (⟨true, ["tpl", "src", "lib.rs"]⟩, [120]),
                (⟨true, ["tpl", "src", "main.rs"]⟩, [120]),
                (⟨true, ["day", "Cargo.toml"]⟩, [5])], []⟩ : FS)
        (absolutize ⟨true, []⟩ ((⟨true, ["day"]⟩ : FPath).join (toFPath t))) = some v) ∧
    (render_templates_into (fun _ => .error .requestingInput) ⟨true, []⟩
        ⟨[(2020, ⟨none, none, some ⟨true, ["tpl"]⟩⟩)]⟩ ⟨true, ["day"]⟩ 2020 7 "day07"
        ⟨[(⟨true, ["tpl", "Cargo.toml"]⟩, [120]),
          (⟨true, ["tpl", "src", "lib.rs"]⟩, [120]),
          (⟨true, ["tpl", "src", "main.rs"]⟩, [120]),
          (⟨true, ["day", "Cargo.toml"]⟩, [5])], []⟩).1
      = .error (.io "opening template destination for writing") ∧
    fsRead (render_templates_into (fun _ => .error .requestingInput) ⟨true, []⟩
        ⟨[(2020, ⟨none, none, some ⟨true, ["tpl"]⟩⟩)]⟩ ⟨true, ["day"]⟩ 2020 7 "day07"
        ⟨[(⟨true, ["tpl", "Cargo.toml"]⟩, [120]),
          (⟨true, ["tpl", "src", "lib.rs"]⟩, [120]),
          (⟨true, ["tpl", "src", "main.rs"]⟩, [120]),
          (⟨true, ["day", "Cargo.toml"]⟩, [5])], []⟩).2.1
      (absolutize ⟨true, []⟩ ((⟨true, ["day"]⟩ : FPath).join (toFPath "Cargo.toml")))
      = some [5] := by
  have h := render_into_existing_dest_fails (fun _ => .error .requestingInput)
    ⟨true, []⟩ ⟨[(2020, ⟨none, none, some ⟨true, ["tpl"]⟩⟩)]⟩ ⟨true, ["day"]⟩ 2020 7 "day07"
    ⟨[(⟨true, ["tpl", "Cargo.toml"]⟩, [120]),
      (⟨true, ["tpl", "src", "lib.rs"]⟩, [120]),
      (⟨true, ["tpl", "src", "main.rs"]⟩, [120]),
      (⟨true, ["day", "Cargo.toml"]⟩, [5])], []⟩
    (by decide) ⟨"Cargo.toml", by decide, [5], by decide⟩
  exact ⟨⟨"Cargo.toml", by decide, [5], by decide⟩, h.1,
    h.2 "Cargo.toml" (by decide) [5] (by decide)⟩

/-! ## Year-initialization lemmas -/

/-- C7 counterexample: with the input-files directory configured equal to the
implementation directory — not a strict subdirectory — `initialize_year`
still adds an ignore entry (the line `/`) to the `.gitignore`. -/
theorem initYear_entry_for_equal_dirs :
    Config.input_files
        ⟨[(2020, ⟨some ⟨true, ["impl"]⟩, some ⟨true, ["impl"]⟩, none⟩)]⟩
        ⟨true, []⟩ 2020
      = Config.implementation
        ⟨[(2020, ⟨some ⟨true, ["impl"]⟩, some ⟨true, ["impl"]⟩, none⟩)]⟩
        ⟨true, []⟩ 2020 ∧
    fsRead (initYear ⟨true, []⟩
        ⟨[(2020, ⟨some ⟨true, ["impl"]⟩, some ⟨true, ["impl"]⟩, none⟩)]⟩ 2020
        ⟨none, none, none⟩
        ⟨[(⟨true, ["impl", "x"]⟩, [])], [⟨true, ["impl"]⟩]⟩).2.2
      ⟨true, ["impl", ".gitignore"]⟩ = some [47, 10] := by
  decide

/-- C7 (amended): after path reconciliation (here: no CLI paths, both paths
configured) and with the implementation directory existing and non-empty,
`initialize_year` hands the ignore entry — the relative path of the
input-files directory with a trailing separator — to the line augmenter if
and only if `diff_paths` yields a relative path that does not start with a
`..` component, i.e. the input-files directory is the implementation
directory itself or a (not necessarily strict) subdirectory of it. -/
theorem initYear_gitignore_entry (cwd : FPath) (config : Config) (year : Nat)
    (fs : FS) (P : Paths) (pin pim : FPath) (rel : FPath)
    (hP : alookup config.paths year = some P)
    (hin : P.input_files = some pin)
    (him : P.implementation = some pim)
    (hEx : existsPath fs (absolutize cwd pim) = true)
    (hNE : (isDir fs (absolutize cwd pim) && dirEmptyCheck fs (absolutize cwd pim)) = false)
    (hdiff : diff_paths pin pim = some rel) :
    initYear cwd config year ⟨none, none, none⟩ fs
      = (.ok (), config,
         if rel.comps.head? = some ".." then fs
         else (append_if_not_present cwd (pim.join (toFPath ".gitignore"))
           (strBytes rel.display ++ [47]) fs).2) := by
  obtain ⟨Pimp, Pin, Pday⟩ := P
  simp only [Paths.input_files] at hin
  simp only [Paths.implementation] at him
  subst hin
  subst him
  have hset : setPathsEntry config year ⟨some pim, some pin, Pday⟩ = config := by
    simp [setPathsEntry, aupdate_self config.paths year _ hP]
  simp only [initYear, orDefaultPaths, hP, Config.pathsFor, Option.getD_some,
    ensure_path, hset, Config.implementation, Config.input_files, hEx, hNE,
    Bool.not_true, Bool.false_or, hdiff]
  simp [hEx, hNE, hdiff, hset, Config.implementation, Config.input_files,
    Config.pathsFor, hP]

/-- C7 witness: input-files configured as a strict subdirectory `inputs` of
the implementation directory; the augmenter is invoked with `inputs/`. -/
theorem initYear_gitignore_entry_witness :
    diff_paths ⟨true, ["impl", "inputs"]⟩ ⟨true, ["impl"]⟩
      = some ⟨false, ["inputs"]⟩ ∧
    initYear ⟨true, []⟩
        ⟨[(2020, ⟨some ⟨true, ["impl"]⟩, some ⟨true, ["impl", "inputs"]⟩, none⟩)]⟩
        2020 ⟨none, none, none⟩
        ⟨[(⟨true, ["impl", "x"]⟩, [])], [⟨true, ["impl"]⟩]⟩
      = (.ok (),
         ⟨[(2020, ⟨some ⟨true, ["impl"]⟩, some ⟨true, ["impl", "inputs"]⟩, none⟩)]⟩,
         if (⟨false, ["inputs"]⟩ : FPath).comps.head? = some ".." then
           ⟨[(⟨true, ["impl", "x"]⟩, [])], [⟨true, ["impl"]⟩]⟩
         else (append_if_not_present ⟨true, []⟩
           ((⟨true, ["impl"]⟩ : FPath).join (toFPath ".gitignore"))
           (strBytes (FPath.display ⟨false, ["inputs"]⟩) ++ [47])
           ⟨[(⟨true, ["impl", "x"]⟩, [])], [⟨true, ["impl"]⟩]⟩).2) :=
  ⟨by decide,
    initYear_gitignore_entry ⟨true, []⟩
      ⟨[(2020, ⟨some ⟨true, ["impl"]⟩, some ⟨true, ["impl", "inputs"]⟩, none⟩)]⟩
      2020 ⟨[(⟨true, ["impl", "x"]⟩, [])], [⟨true, ["impl"]⟩]⟩
      ⟨some ⟨true, ["impl"]⟩, some ⟨true, ["impl", "inputs"]⟩, none⟩
      ⟨true, ["impl", "inputs"]⟩ ⟨true, ["impl"]⟩ ⟨false, ["inputs"]⟩
      (by decide) rfl rfl (by decide) (by decide) (by decide)⟩
